import Mathlib

/-!
Verification of the mp4 box codec (segment-index `sidx` and fragment-extension
`mvex` boxes) from `src/mp4box/sidx.rs` and `src/mp4box/mvex.rs`.

The byte stream is modelled as a list of bytes (`Fin 256`) together with a
cursor position; fallible reads return `Except`.  Machine integers are
modelled as `Nat` with explicit `% 2 ^ w` at every point where the Rust code
performs a cast or where an operation can wrap.
-/

/-- A byte of the wire format. -/
abbrev Byte := Fin 256

/-- A seekable byte stream: the underlying data plus a cursor position.
Seeking past the end is allowed (as for `std::io::Cursor`); reading past the
end fails. -/
structure ByteStream where
  data : List Byte
  pos : Nat
deriving DecidableEq

/-- Errors of the codec, mirroring the `Error` variants that the two source
files use: I/O end-of-stream, `Error::InvalidData`, `Error::BoxNotFound`. -/
inductive Mp4Error where
  | ioEof : Mp4Error
  | invalidData (msg : String) : Mp4Error
  | boxNotFound (tag : Nat) : Mp4Error
deriving DecidableEq

abbrev Mp4Result (α : Type) := Except Mp4Error α

instance {ε α : Type} [DecidableEq ε] [DecidableEq α] : DecidableEq (Except ε α) := by
  intro a b
  cases a <;> cases b
  case error.error e1 e2 =>
    exact if h : e1 = e2 then .isTrue (by rw [h]) else .isFalse (by simp [h])
  case error.ok e1 a2 => exact .isFalse (by simp)
  case ok.error a1 e2 => exact .isFalse (by simp)
  case ok.ok a1 a2 =>
    exact if h : a1 = a2 then .isTrue (by rw [h]) else .isFalse (by simp [h])

/-- A stateful parsing step: byteorder-style reads advance the cursor. -/
def ParseM (α : Type) : Type := ByteStream → Mp4Result (α × ByteStream)

/-- Sequencing of fallible reads; this is the monadic shape of Rust's `?`
operator in the source. -/
def pbind {α β : Type} (p : ParseM α) (f : α → ParseM β) : ParseM β := fun s =>
  match p s with
  | .error e => .error e
  | .ok (a, s1) => f a s1

/-- Read exactly `n` raw bytes, failing with an end-of-stream error when fewer
remain (byteorder's `read_uN` on a cursor). -/
def readBytesN (n : Nat) : ParseM (List Byte) := fun s =>
  if s.pos + n ≤ s.data.length then
    .ok ((s.data.drop s.pos).take n, ⟨s.data, s.pos + n⟩)
  else .error .ioEof

/-- Big-endian value of a byte list (most significant byte first). -/
def beVal (l : List Byte) : Nat :=
  l.foldl (fun acc b => acc * 256 + b.val) 0

/-- Big-endian encoding of `v` on `w` bytes (low `8 * w` bits of `v`). -/
def beBytes : Nat → Nat → List Byte
  | 0, _ => []
  | w + 1, v => beBytes w (v / 256) ++ [⟨v % 256, Nat.mod_lt v (by omega)⟩]

/-- Read a `w`-byte big-endian unsigned integer: `read_u8`, `read_u16`,
`read_u24`, `read_u32`, `read_u64` of the byteorder crate are `readBe 1`,
`readBe 2`, `readBe 3`, `readBe 4`, `readBe 8`. -/
def readBe (w : Nat) : ParseM Nat :=
  pbind (readBytesN w) (fun bs => fun s => .ok (beVal bs, s))

/-- Modelled from the spec: the box header size constant (`HEADER_SIZE` of the
`mp4box` module, not under `src/`); the header is a 4-byte size plus a 4-byte
type tag. -/
def HEADER_SIZE : Nat := 8

/-- The box kinds this development needs, plus the catch-all for unrecognized
tags (`BoxType::UnknownBox` in the repository). -/
inductive BoxType where
  | MvexBox : BoxType
  | MehdBox : BoxType
  | TrexBox : BoxType
  | SidxBox : BoxType
  | UnknownBox (tag : Nat) : BoxType
deriving DecidableEq

/-- Modelled from the spec: the type-tag dispatch table mapping a 4-byte tag
to a box kind (the box-type registry is not under `src/`).  The four tags are
the ASCII fourcc codes `mvex`, `mehd`, `trex`, `sidx`. -/
def BoxType.fromTag (t : Nat) : BoxType :=
  if t = 0x6d766578 then .MvexBox
  else if t = 0x6d656864 then .MehdBox
  else if t = 0x74726578 then .TrexBox
  else if t = 0x73696478 then .SidxBox
  else .UnknownBox t

/-- The 4-byte tag of a box kind. -/
def BoxType.toTag : BoxType → Nat
  | .MvexBox => 0x6d766578
  | .MehdBox => 0x6d656864
  | .TrexBox => 0x74726578
  | .SidxBox => 0x73696478
  | .UnknownBox t => t

/-- A parsed box header: type tag and declared size (size counts the header
itself plus the payload). -/
structure BoxHeader where
  name : BoxType
  size : Nat
deriving DecidableEq

/-- Modelled from the spec: `BoxHeader::read` (not under `src/`) consumes
exactly 8 bytes from the current position: a 4-byte big-endian size then a
4-byte type tag; the extended-size and extended-type variants are, per the
spec, generalizations not exercised by the two sample boxes and are omitted. -/
def BoxHeader.read : ParseM BoxHeader :=
  pbind (readBe 4) (fun sz =>
  pbind (readBe 4) (fun tag => fun s =>
    .ok (⟨BoxType.fromTag tag, sz⟩, s)))

/-- Modelled from the spec: `BoxHeader::write` (not under `src/`) emits the
same 8-byte layout: 4-byte big-endian size then the 4-byte type tag. -/
def BoxHeader.write (h : BoxHeader) : List Byte :=
  beBytes 4 h.size ++ beBytes 4 h.name.toTag

/-- Modelled from the spec: `box_start` (not under `src/`) is the stream
position at which the current box's header began, i.e. the current position
minus the 8-byte header that was just consumed. -/
def box_start (s : ByteStream) : Nat := s.pos - HEADER_SIZE

/-- Modelled from the spec: `skip_bytes_to` (not under `src/`) seeks the
stream to an absolute position; a seek never fails. -/
def skip_bytes_to (s : ByteStream) (p : Nat) : ByteStream := ⟨s.data, p⟩

/-- Modelled from the spec: `skip_box` (not under `src/`) skips the box whose
8-byte header was just read, by seeking to the box's start plus its declared
size ("advancing the stream past its declared size without interpretation"). -/
def skip_box (s : ByteStream) (size : Nat) : ByteStream :=
  skip_bytes_to s (box_start s + size)

/-- Modelled from the spec: the fragment-header-extension (`mehd`) child box
(its codec is not under `src/`); the spec treats it as a leaf box framed by
its own header, so it is modelled as its raw payload bytes. -/
structure MehdBox where
  payload : List Byte
deriving DecidableEq

/-- Modelled from the spec: the track-extends (`trex`) child box (its codec is
not under `src/`); the spec treats it as a leaf box framed by its own header,
so it is modelled as its raw payload bytes. -/
structure TrexBox where
  payload : List Byte
deriving DecidableEq

/-- Modelled from the spec: a leaf box's `box_size` is its 8-byte header plus
its payload length. -/
def MehdBox.box_size (b : MehdBox) : Nat := HEADER_SIZE + b.payload.length

/-- Modelled from the spec: a leaf box's `box_size` is its 8-byte header plus
its payload length. -/
def TrexBox.box_size (b : TrexBox) : Nat := HEADER_SIZE + b.payload.length

/-- Modelled from the spec: a leaf child's `read_box` is called after its
header was consumed and reads the remaining `size - 8` payload bytes. -/
def MehdBox.read_box (size : Nat) : ParseM MehdBox :=
  pbind (readBytesN (size - HEADER_SIZE)) (fun bs => fun s => .ok (⟨bs⟩, s))

/-- Modelled from the spec: a leaf child's `read_box` is called after its
header was consumed and reads the remaining `size - 8` payload bytes. -/
def TrexBox.read_box (size : Nat) : ParseM TrexBox :=
  pbind (readBytesN (size - HEADER_SIZE)) (fun bs => fun s => .ok (⟨bs⟩, s))

/-! ## The segment-index (`sidx`) box, from `src/mp4box/sidx.rs` -/

/-- `SidxReference` of `sidx.rs`.  Field widths (Rust types): `reference_type
: u8`, `referenced_size : u32`, `subsegment_duration : u32`, `starts_with_sap
: u8`, `sap_type : u8`, `sap_delta_time : u32`. -/
structure SidxReference where
  reference_type : Nat
  referenced_size : Nat
  subsegment_duration : Nat
  starts_with_sap : Nat
  sap_type : Nat
  sap_delta_time : Nat
deriving DecidableEq

/-- `SidxBox` of `sidx.rs`.  Field widths (Rust types): `version : u8`,
`flags : u32`, `reference_id : u32`, `timescale : u32`,
`earliest_presentation_time : u64`, `first_offset : u64`. -/
structure SidxBox where
  version : Nat
  flags : Nat
  reference_id : Nat
  timescale : Nat
  earliest_presentation_time : Nat
  first_offset : Nat
  references : List SidxReference
deriving DecidableEq

/-- `SidxBox::get_size` of `sidx.rs` (line 32). -/
def SidxBox.get_size (b : SidxBox) : Nat :=
  HEADER_SIZE + (4 + (if b.version = 1 then 2 else 1) * 2) * 4
    + 12 * b.references.length

/-- The first 32-bit word of a reference record on encode (`sidx.rs` lines
145-146): `((reference_type as u32) << 31) | (referenced_size & 0x7FFFFFFF)`;
the shift of a `u32` wraps modulo `2 ^ 32`. -/
def packRefWord (rt rs : Nat) : Nat :=
  ((rt <<< 31) % 2 ^ 32) ||| (rs &&& 0x7FFFFFFF)

/-- Decode of the first 32-bit word of a reference record (`sidx.rs` lines
86-87): `reference_type = (w >> 31) as u8`, `referenced_size = w &
0x7FFFFFFF`. -/
def unpackRefWord (w : Nat) : Nat × Nat :=
  ((w >>> 31) % 2 ^ 8, w &&& 0x7FFFFFFF)

/-- The third 32-bit word of a reference record on encode (`sidx.rs` lines
151-153): `((starts_with_sap as u32) << 31) | ((sap_type as u32) << 28) |
(sap_delta_time & 0x0FFFFFFF)`. -/
def packSapWord (sws sty sdt : Nat) : Nat :=
  ((sws <<< 31) % 2 ^ 32) ||| ((sty <<< 28) % 2 ^ 32) ||| (sdt &&& 0x0FFFFFFF)

/-- Decode of the third 32-bit word of a reference record (`sidx.rs` lines
92-94): `starts_with_sap = (w >> 31) as u8`, `sap_type = ((w >> 28) & 0x7) as
u8`, `sap_delta_time = w & 0x0FFFFFFF`. -/
def unpackSapWord (w : Nat) : Nat × Nat × Nat :=
  ((w >>> 31) % 2 ^ 8, ((w >>> 28) &&& 0x7) % 2 ^ 8, w &&& 0x0FFFFFFF)

/-- The version-conditional 64-bit read of `sidx.rs` lines 67-77: 8 bytes when
`version == 1`, else 4 bytes zero-extended (`as u64`). -/
def readVersionedU64 (version : Nat) : ParseM Nat :=
  if version = 1 then readBe 8 else readBe 4

/-- The version-conditional 64-bit write of `sidx.rs` lines 131-137: 8 bytes
when `version == 1`, else the low 32 bits (`as u32` narrows silently). -/
def writeVersionedU64 (version v : Nat) : List Byte :=
  if version = 1 then beBytes 8 v else beBytes 4 (v % 2 ^ 32)

/-- The reference-reading loop of `SidxBox::read_box` (`sidx.rs` lines
84-104), returning the references in push order. -/
def SidxBox.readRefs : Nat → ParseM (List SidxReference)
  | 0 => fun s => .ok ([], s)
  | n + 1 =>
    pbind (readBe 4) (fun w1 =>
    pbind (readBe 4) (fun subsegment_duration =>
    pbind (readBe 4) (fun w3 =>
    pbind (SidxBox.readRefs n) (fun rest => fun s =>
      .ok ({ reference_type := (unpackRefWord w1).1
             referenced_size := (unpackRefWord w1).2
             subsegment_duration
             starts_with_sap := (unpackSapWord w3).1
             sap_type := (unpackSapWord w3).2.1
             sap_delta_time := (unpackSapWord w3).2.2 } :: rest, s)))))

/-- The field-reading part of `SidxBox::read_box` (`sidx.rs` lines 61-104),
before the final `skip_bytes_to`. -/
def SidxBox.parseBody : ParseM SidxBox :=
  pbind (readBe 1) (fun version =>
  pbind (readBe 3) (fun flags =>
  pbind (readBe 4) (fun reference_id =>
  pbind (readBe 4) (fun timescale =>
  pbind (readVersionedU64 version) (fun earliest_presentation_time =>
  pbind (readVersionedU64 version) (fun first_offset =>
  pbind (readBe 2) (fun _reserved =>
  pbind (readBe 2) (fun reference_count =>
  pbind (SidxBox.readRefs reference_count) (fun references => fun s =>
    .ok ({ version, flags, reference_id, timescale, earliest_presentation_time,
           first_offset, references }, s))))))))))

/-- `SidxBox::read_box` of `sidx.rs` (lines 57-118): `start = box_start`, read
all fields, then `skip_bytes_to (start + size)`. -/
def SidxBox.read_box (s : ByteStream) (size : Nat) : Mp4Result (SidxBox × ByteStream) :=
  match SidxBox.parseBody s with
  | .error e => .error e
  | .ok (b, s1) => .ok (b, skip_bytes_to s1 (box_start s + size))

/-- The 12 bytes of one reference record on encode (`sidx.rs` lines 144-155). -/
def SidxReference.encode (r : SidxReference) : List Byte :=
  beBytes 4 (packRefWord r.reference_type r.referenced_size) ++
  (beBytes 4 r.subsegment_duration ++
   beBytes 4 (packSapWord r.starts_with_sap r.sap_type r.sap_delta_time))

/-- `SidxBox::write_box` of `sidx.rs` (lines 120-158): header, version byte,
3 zero flag bytes, `reference_id`, `timescale`, the two version-conditional
fields, 2 zero reserved bytes, `references.len() as u16`, then the records.
Returns the written bytes and the returned `size` (which is `box_size()`). -/
def SidxBox.write_box (b : SidxBox) : List Byte × Nat :=
  (BoxHeader.write ⟨BoxType.SidxBox, b.get_size⟩ ++
   (beBytes 1 b.version ++
    (beBytes 3 0 ++
     (beBytes 4 b.reference_id ++
      (beBytes 4 b.timescale ++
       (writeVersionedU64 b.version b.earliest_presentation_time ++
        (writeVersionedU64 b.version b.first_offset ++
         (beBytes 2 0 ++
          (beBytes 2 (b.references.length % 2 ^ 16) ++
           (b.references.map SidxReference.encode).flatten)))))))),
   b.get_size)

/-! ## The fragment-extension (`mvex`) box, from `src/mp4box/mvex.rs` -/

/-- `MvexBox` of `mvex.rs`: an optional `mehd` child and the list of `trex`
children. -/
structure MvexBox where
  mehd : Option MehdBox
  trex : List TrexBox
deriving DecidableEq

/-- `MvexBox::get_size` of `mvex.rs` (lines 18-22). -/
def MvexBox.get_size (m : MvexBox) : Nat :=
  HEADER_SIZE + (m.mehd.map MehdBox.box_size).getD 0
    + m.trex.foldl (fun a v => a + v.box_size) 0

/-- The child-reading loop of `MvexBox::read_box` (`mvex.rs` lines 51-77),
with explicit fuel for termination (the Rust loop can diverge on a crafted
stream whose unrecognized child declares a size below 8; running out of fuel
is reported as an error).  Each iteration: stop when `current < end` fails,
read a child header, fail when the child's declared size exceeds the parent's
declared `size`, then dispatch on the tag. -/
def MvexBox.readLoop :
    Nat → Nat → Nat → Option MehdBox → List TrexBox → ByteStream →
    Mp4Result (Option MehdBox × List TrexBox × ByteStream)
  | 0, _, _, _, _, _ => .error (.invalidData "out of fuel")
  | fuel + 1, parentSize, endPos, mehd, trex, s =>
    if s.pos < endPos then
      match BoxHeader.read s with
      | .error e => .error e
      | .ok (header, s1) =>
        if parentSize < header.size then
          .error (.invalidData "mvex box contains a box with a larger size than it")
        else
          match header.name with
          | .MehdBox =>
            match MehdBox.read_box header.size s1 with
            | .error e => .error e
            | .ok (m, s2) => MvexBox.readLoop fuel parentSize endPos (some m) trex s2
          | .TrexBox =>
            match TrexBox.read_box header.size s1 with
            | .error e => .error e
            | .ok (t, s2) => MvexBox.readLoop fuel parentSize endPos mehd (trex ++ [t]) s2
          | _ => MvexBox.readLoop fuel parentSize endPos mehd trex (skip_box s1 header.size)
    else .ok (mehd, trex, s)

/-- `MvexBox::read_box` of `mvex.rs` (lines 44-87): run the child loop over
`[start, start + size)`, fail with `BoxNotFound(trex)` when no `trex` child
was collected, else skip to the declared end. -/
def MvexBox.read_box (fuel : Nat) (s : ByteStream) (size : Nat) :
    Mp4Result (MvexBox × ByteStream) :=
  match MvexBox.readLoop fuel size (box_start s + size) none [] s with
  | .error e => .error e
  | .ok (mehd, trex, s1) =>
    if trex.isEmpty then .error (.boxNotFound BoxType.TrexBox.toTag)
    else .ok ({ mehd, trex }, skip_bytes_to s1 (box_start s + size))

/-! ## Structured descriptions of an mvex byte range

A byte range made of consecutive well-formed child boxes, used to state the
container-level claims.  `RawChild.encode` frames one child: a 4-byte size
(8 + payload length), the 4-byte tag, then the payload. -/

/-- One child box of an mvex byte range, as tag plus payload. -/
structure RawChild where
  tag : Nat
  payload : List Byte

/-- The wire image of one child box: header then payload. -/
def RawChild.encode (c : RawChild) : List Byte :=
  beBytes 4 (HEADER_SIZE + c.payload.length) ++ (beBytes 4 c.tag ++ c.payload)

/-- Well-formedness of a child description: tag and declared size fit the
4-byte header fields. -/
def RawChild.wf (c : RawChild) : Prop :=
  c.tag < 256 ^ 4 ∧ HEADER_SIZE + c.payload.length < 256 ^ 4

/-- The wire image of a child sequence. -/
def encodeChildren (cs : List RawChild) : List Byte :=
  (cs.map RawChild.encode).flatten

/-- What one child contributes to the decoded mvex content: a `mehd` child
overwrites the optional slot (last wins), a `trex` child is appended, any
other tag contributes nothing. -/
def childAccStep (acc : Option MehdBox × List TrexBox) (c : RawChild) :
    Option MehdBox × List TrexBox :=
  if c.tag = 0x6d656864 then (some ⟨c.payload⟩, acc.2)
  else if c.tag = 0x74726578 then (acc.1, acc.2 ++ [⟨c.payload⟩])
  else acc

/-- The `trex` children of a child sequence, in their original order, with
their payloads unchanged. -/
def mvexTrexOf (cs : List RawChild) : List TrexBox :=
  (cs.filter (fun c => c.tag == 0x74726578)).map (fun c => ⟨c.payload⟩)

/-- The decoded optional `mehd` slot of a child sequence (last `mehd` child
wins). -/
def mvexMehdOf (cs : List RawChild) : Option MehdBox :=
  (cs.foldl childAccStep (none, [])).1

/-! ## Arithmetic of the big-endian byte codec -/

theorem length_beBytes (w v : Nat) : (beBytes w v).length = w := by
  induction w generalizing v with
  | zero => rfl
  | succ w ih => simp [beBytes, ih]

theorem beVal_go (l : List Byte) (a : Nat) :
    l.foldl (fun acc b => acc * 256 + b.val) a = a * 256 ^ l.length + beVal l := by
  induction l generalizing a with
  | nil => simp [beVal]
  | cons b l ih =>
    simp only [List.foldl_cons, List.length_cons]
    rw [ih (a * 256 + b.val)]
    have hb : beVal (b :: l) = b.val * 256 ^ l.length + beVal l := by
      unfold beVal
      simp only [List.foldl_cons]
      rw [show (0 * 256 + (b.val : Nat)) = b.val by omega]
      exact ih b.val
    rw [hb]
    ring

theorem beVal_cons (b : Byte) (l : List Byte) :
    beVal (b :: l) = b.val * 256 ^ l.length + beVal l := by
  unfold beVal
  simp only [List.foldl_cons]
  rw [show (0 * 256 + (b.val : Nat)) = b.val by omega]
  exact beVal_go l b.val

theorem beVal_append (l1 l2 : List Byte) :
    beVal (l1 ++ l2) = beVal l1 * 256 ^ l2.length + beVal l2 := by
  unfold beVal
  rw [List.foldl_append]
  exact beVal_go l2 _

theorem beVal_lt (l : List Byte) : beVal l < 256 ^ l.length := by
  induction l with
  | nil => simp [beVal]
  | cons b l ih =>
    rw [beVal_cons, List.length_cons, pow_succ, Nat.mul_comm (256 ^ l.length) 256]
    have hb : b.val ≤ 255 := by omega
    calc b.val * 256 ^ l.length + beVal l
        < b.val * 256 ^ l.length + 256 ^ l.length := by omega
      _ = (b.val + 1) * 256 ^ l.length := by ring
      _ ≤ 256 * 256 ^ l.length := by
          exact Nat.mul_le_mul_right _ (by omega)

theorem base256_step (K v : Nat) (hK : 0 < K) :
    v / 256 % K * 256 + v % 256 = v % (K * 256) := by
  have h1 : 256 * (v / 256) + v % 256 = v := Nat.div_add_mod v 256
  have h2 : K * (v / 256 / K) + v / 256 % K = v / 256 := Nat.div_add_mod (v / 256) K
  have h3 : v / 256 % K < K := Nat.mod_lt _ hK
  have h4 : v % 256 < 256 := Nat.mod_lt _ (by omega)
  have hv : v = v / 256 % K * 256 + v % 256 + v / 256 / K * (K * 256) := by
    conv_lhs => rw [← h1, ← h2]
    ring
  conv_rhs => rw [hv]
  rw [Nat.add_mul_mod_self_right]
  exact (Nat.mod_eq_of_lt (by omega)).symm

theorem beVal_beBytes (w v : Nat) : beVal (beBytes w v) = v % 256 ^ w := by
  induction w generalizing v with
  | zero => simp [beBytes, beVal, Nat.mod_one]
  | succ w ih =>
    rw [beBytes, beVal_append, ih]
    have hone : beVal [(⟨v % 256, Nat.mod_lt v (by omega)⟩ : Byte)] = v % 256 := by
      simp [beVal]
    rw [hone]
    simp only [List.length_cons, List.length_nil, pow_one, pow_succ]
    exact base256_step (256 ^ w) v (by positivity)

/-! ## A chunk-consumption calculus for sequential parsing -/

/-- A parsing step `p` consumes exactly `chunk` and returns `v`: at any
position in any stream whose bytes from that position start with `chunk`, it
succeeds with `v` and advances the cursor by exactly `chunk.length`. -/
def Consumes {α : Type} (p : ParseM α) (chunk : List Byte) (v : α) : Prop :=
  ∀ pre rest : List Byte,
    p ⟨pre ++ (chunk ++ rest), pre.length⟩
      = .ok (v, ⟨pre ++ (chunk ++ rest), pre.length + chunk.length⟩)

theorem consumes_pure {α : Type} (v : α) :
    Consumes (fun s => .ok (v, s)) [] v := by
  intro pre rest
  simp

theorem consumes_pbind {α β : Type} {p : ParseM α} {f : α → ParseM β}
    {c1 c2 : List Byte} {v1 : α} {v2 : β}
    (h1 : Consumes p c1 v1) (h2 : Consumes (f v1) c2 v2) :
    Consumes (pbind p f) (c1 ++ c2) v2 := by
  intro pre rest
  unfold pbind
  have e1 := h1 pre (c2 ++ rest)
  have e2 := h2 (pre ++ c1) rest
  simp only [List.append_assoc, List.length_append, Nat.add_assoc] at e1 e2 ⊢
  rw [e1]
  exact e2

theorem consumes_congr {α : Type} {p : ParseM α} {c1 c2 : List Byte} {v1 v2 : α}
    (hc : c1 = c2) (hv : v1 = v2) (h : Consumes p c1 v1) : Consumes p c2 v2 :=
  hc ▸ hv ▸ h

theorem consumes_readBytesN (chunk : List Byte) :
    Consumes (readBytesN chunk.length) chunk chunk := by
  intro pre rest
  unfold readBytesN
  have hlen : pre.length + chunk.length ≤ (pre ++ (chunk ++ rest)).length := by
    simp [List.length_append]
  rw [if_pos hlen, List.drop_left, List.take_left]

theorem consumes_readBe (w v : Nat) (hv : v < 256 ^ w) :
    Consumes (readBe w) (beBytes w v) v := by
  have h1 : Consumes (readBytesN (beBytes w v).length) (beBytes w v) (beBytes w v) :=
    consumes_readBytesN _
  rw [length_beBytes] at h1
  have h3 := @consumes_pbind (List Byte) Nat (readBytesN w)
    (fun bs => fun s => .ok (beVal bs, s)) (beBytes w v) [] (beBytes w v)
    (beVal (beBytes w v)) h1 (consumes_pure (beVal (beBytes w v)))
  rw [List.append_nil] at h3
  have h4 : beVal (beBytes w v) = v := by
    rw [beVal_beBytes]
    exact Nat.mod_eq_of_lt hv
  rw [h4] at h3
  exact h3

theorem readBytesN_ok {n : Nat} {s s1 : ByteStream} {bs : List Byte}
    (h : readBytesN n s = .ok (bs, s1)) :
    bs = (s.data.drop s.pos).take n ∧ bs.length = n ∧ s1 = ⟨s.data, s.pos + n⟩ := by
  unfold readBytesN at h
  split at h
  · rename_i hle
    injection h with h
    injection h with hbs hs1
    subst hbs
    refine ⟨rfl, ?_, hs1.symm⟩
    rw [List.length_take, List.length_drop]
    omega
  · exact absurd h (by simp)

theorem readBe_ok {w : Nat} {s s1 : ByteStream} {v : Nat}
    (h : readBe w s = .ok (v, s1)) :
    v < 256 ^ w ∧ v = beVal ((s.data.drop s.pos).take w) ∧ s1 = ⟨s.data, s.pos + w⟩ := by
  unfold readBe pbind at h
  split at h
  · exact absurd h (by simp)
  · rename_i a hbytes
    obtain ⟨bs, s2⟩ := a
    obtain ⟨hbs, hlen, hs2⟩ := readBytesN_ok hbytes
    injection h with h
    injection h with hv hs1
    subst hbs
    refine ⟨?_, hv.symm, ?_⟩
    · rw [← hv]
      calc beVal ((s.data.drop s.pos).take w)
          < 256 ^ ((s.data.drop s.pos).take w).length := beVal_lt _
        _ ≤ 256 ^ w := Nat.pow_le_pow_right (by omega)
            (by rw [List.length_take]; omega)
    · rw [← hs1, hs2]

/-! ## Bit-field packing arithmetic -/

theorem lor_mul_pow_add (n a b : Nat) (hb : b < 2 ^ n) :
    (2 ^ n * a) ||| b = 2 ^ n * a + b := by
  apply Nat.eq_of_testBit_eq
  intro j
  rw [Nat.testBit_or, Nat.testBit_mul_pow_two_add a hb j, Nat.testBit_mul_pow_two]
  by_cases h : j < n
  · have h1 : ¬ (j ≥ n) := by omega
    simp [h, h1]
  · have h3 : j ≥ n := by omega
    have h2 : b < 2 ^ j :=
      lt_of_lt_of_le hb (Nat.pow_le_pow_right (by omega) h3)
    simp [h, h3, Nat.testBit_lt_two_pow h2]

theorem packRefWord_eq (rt rs : Nat) (h1 : rt ≤ 1) (h2 : rs < 2 ^ 31) :
    packRefWord rt rs = 2 ^ 31 * rt + rs := by
  unfold packRefWord
  have e0 : (0x7FFFFFFF : Nat) = 2 ^ 31 - 1 := by norm_num
  have hlt : rt * 2 ^ 31 < 2 ^ 32 := by
    have h3 : rt * 2 ^ 31 ≤ 1 * 2 ^ 31 := Nat.mul_le_mul_right _ h1
    norm_num at h3 ⊢
    omega
  rw [Nat.shiftLeft_eq, e0, Nat.and_pow_two_sub_one_eq_mod,
      Nat.mod_eq_of_lt h2, Nat.mod_eq_of_lt hlt, Nat.mul_comm rt (2 ^ 31)]
  exact lor_mul_pow_add 31 rt rs h2

theorem unpack_packRefWord (rt rs : Nat) (h1 : rt ≤ 1) (h2 : rs < 2 ^ 31) :
    unpackRefWord (packRefWord rt rs) = (rt, rs) := by
  rw [packRefWord_eq rt rs h1 h2]
  unfold unpackRefWord
  have e0 : (0x7FFFFFFF : Nat) = 2 ^ 31 - 1 := by norm_num
  rw [Nat.shiftRight_eq_div_pow, e0, Nat.and_pow_two_sub_one_eq_mod,
      Nat.mul_add_div (by norm_num), Nat.div_eq_of_lt h2,
      Nat.mul_add_mod, Nat.mod_eq_of_lt h2, Nat.add_zero]
  rw [Nat.mod_eq_of_lt (by
    calc rt ≤ 1 := h1
      _ < 2 ^ 8 := by norm_num)]

theorem packSapWord_eq (sws sty sdt : Nat)
    (h1 : sws ≤ 1) (h2 : sty ≤ 7) (h3 : sdt < 2 ^ 28) :
    packSapWord sws sty sdt = 2 ^ 31 * sws + 2 ^ 28 * sty + sdt := by
  unfold packSapWord
  have e0 : (0x0FFFFFFF : Nat) = 2 ^ 28 - 1 := by norm_num
  have hb1 : sws * 2 ^ 31 < 2 ^ 32 := by
    have h4 : sws * 2 ^ 31 ≤ 1 * 2 ^ 31 := Nat.mul_le_mul_right _ h1
    norm_num at h4 ⊢
    omega
  have hb2 : sty * 2 ^ 28 < 2 ^ 32 := by
    have h4 : sty * 2 ^ 28 ≤ 7 * 2 ^ 28 := Nat.mul_le_mul_right _ h2
    norm_num at h4 ⊢
    omega
  rw [Nat.shiftLeft_eq, Nat.shiftLeft_eq, e0, Nat.and_pow_two_sub_one_eq_mod,
      Nat.mod_eq_of_lt hb1, Nat.mod_eq_of_lt hb2, Nat.mod_eq_of_lt h3,
      Nat.mul_comm sws (2 ^ 31), Nat.mul_comm sty (2 ^ 28)]
  have s1 : (2 ^ 31 * sws) ||| (2 ^ 28 * sty) = 2 ^ 31 * sws + 2 ^ 28 * sty := by
    apply lor_mul_pow_add
    calc 2 ^ 28 * sty ≤ 2 ^ 28 * 7 := Nat.mul_le_mul_left _ h2
      _ < 2 ^ 31 := by norm_num
  rw [s1, show 2 ^ 31 * sws + 2 ^ 28 * sty = 2 ^ 28 * (8 * sws + sty) by ring,
      lor_mul_pow_add 28 _ sdt h3]

theorem unpack_packSapWord (sws sty sdt : Nat)
    (h1 : sws ≤ 1) (h2 : sty ≤ 7) (h3 : sdt < 2 ^ 28) :
    unpackSapWord (packSapWord sws sty sdt) = (sws, sty, sdt) := by
  rw [packSapWord_eq sws sty sdt h1 h2 h3]
  unfold unpackSapWord
  have e7 : (0x7 : Nat) = 2 ^ 3 - 1 := by norm_num
  have e0 : (0x0FFFFFFF : Nat) = 2 ^ 28 - 1 := by norm_num
  have hrem : 2 ^ 28 * sty + sdt < 2 ^ 31 := by
    have h4 : 2 ^ 28 * sty ≤ 2 ^ 28 * 7 := Nat.mul_le_mul_left _ h2
    norm_num at h4 ⊢
    omega
  have c1 : (2 ^ 31 * sws + 2 ^ 28 * sty + sdt) >>> 31 % 2 ^ 8 = sws := by
    rw [Nat.shiftRight_eq_div_pow, Nat.add_assoc, Nat.mul_add_div (by norm_num),
        Nat.div_eq_of_lt hrem, Nat.add_zero]
    exact Nat.mod_eq_of_lt (by
      calc sws ≤ 1 := h1
        _ < 2 ^ 8 := by norm_num)
  have c2 : ((2 ^ 31 * sws + 2 ^ 28 * sty + sdt) >>> 28 &&& 0x7) % 2 ^ 8 = sty := by
    rw [show 2 ^ 31 * sws + 2 ^ 28 * sty + sdt = 2 ^ 28 * (8 * sws + sty) + sdt by ring,
        Nat.shiftRight_eq_div_pow, Nat.mul_add_div (by norm_num),
        Nat.div_eq_of_lt h3, Nat.add_zero, e7, Nat.and_pow_two_sub_one_eq_mod]
    have hmod : (8 * sws + sty) % 2 ^ 3 = sty := by
      rw [show 8 * sws + sty = sty + sws * 2 ^ 3 by ring, Nat.add_mul_mod_self_right]
      exact Nat.mod_eq_of_lt (by
        calc sty ≤ 7 := h2
          _ < 2 ^ 3 := by norm_num)
    rw [hmod]
    exact Nat.mod_eq_of_lt (by
      calc sty ≤ 7 := h2
        _ < 2 ^ 8 := by norm_num)
  have c3 : (2 ^ 31 * sws + 2 ^ 28 * sty + sdt) &&& 0x0FFFFFFF = sdt := by
    rw [show 2 ^ 31 * sws + 2 ^ 28 * sty + sdt = 2 ^ 28 * (8 * sws + sty) + sdt by ring,
        e0, Nat.and_pow_two_sub_one_eq_mod, Nat.mul_add_mod]
    exact Nat.mod_eq_of_lt h3
  rw [c1, c2, c3]

theorem packRefWord_lt (rt rs : Nat) : packRefWord rt rs < 2 ^ 32 := by
  unfold packRefWord
  apply Nat.or_lt_two_pow
  · exact Nat.mod_lt _ (by norm_num)
  · have e0 : (0x7FFFFFFF : Nat) = 2 ^ 31 - 1 := by norm_num
    rw [e0, Nat.and_pow_two_sub_one_eq_mod]
    calc rs % 2 ^ 31 < 2 ^ 31 := Nat.mod_lt _ (by norm_num)
      _ ≤ 2 ^ 32 := by norm_num

theorem packSapWord_lt (sws sty sdt : Nat) : packSapWord sws sty sdt < 2 ^ 32 := by
  unfold packSapWord
  apply Nat.or_lt_two_pow
  · apply Nat.or_lt_two_pow
    · exact Nat.mod_lt _ (by norm_num)
    · exact Nat.mod_lt _ (by norm_num)
  · have e0 : (0x0FFFFFFF : Nat) = 2 ^ 28 - 1 := by norm_num
    rw [e0, Nat.and_pow_two_sub_one_eq_mod]
    calc sdt % 2 ^ 28 < 2 ^ 28 := Nat.mod_lt _ (by norm_num)
      _ ≤ 2 ^ 32 := by norm_num

/-! ## Consumption of the sidx wire image -/

theorem consumes_pbind_eq {α β : Type} {p : ParseM α} {f : α → ParseM β}
    {c1 c2 c3 : List Byte} {v1 : α} {v2 : β}
    (h1 : Consumes p c1 v1) (hc : c3 = c1 ++ c2) (h2 : Consumes (f v1) c2 v2) :
    Consumes (pbind p f) c3 v2 :=
  hc ▸ consumes_pbind h1 h2

theorem consumes_readVersioned (version v : Nat) (h64 : v < 2 ^ 64)
    (h32 : version ≠ 1 → v < 2 ^ 32) :
    Consumes (readVersionedU64 version) (writeVersionedU64 version v) v := by
  unfold readVersionedU64 writeVersionedU64
  by_cases h : version = 1
  · rw [if_pos h, if_pos h]
    refine consumes_readBe 8 v ?_
    norm_num at h64 ⊢
    omega
  · rw [if_neg h, if_neg h, Nat.mod_eq_of_lt (h32 h)]
    refine consumes_readBe 4 v ?_
    have := h32 h
    norm_num at this ⊢
    omega

/-- The per-field validity bounds of a reference record: each field fits the
bit width it occupies on the wire (1, 31, 32, 1, 3, 28 bits). -/
def SidxReference.wf (r : SidxReference) : Prop :=
  r.reference_type ≤ 1 ∧ r.referenced_size < 2 ^ 31 ∧
  r.subsegment_duration < 2 ^ 32 ∧ r.starts_with_sap ≤ 1 ∧
  r.sap_type ≤ 7 ∧ r.sap_delta_time < 2 ^ 28

/-- Validity of a whole `SidxBox`: version is 0 or 1 (the data model of the
spec), the 32-bit fields fit 32 bits, the two 64-bit fields fit 64 bits and
also 32 bits when version is 0, at most `2 ^ 16 - 1` references, and every
reference is itself within its bit widths. -/
def SidxBox.wf (b : SidxBox) : Prop :=
  b.version ≤ 1 ∧ b.reference_id < 2 ^ 32 ∧ b.timescale < 2 ^ 32 ∧
  b.earliest_presentation_time < 2 ^ 64 ∧ b.first_offset < 2 ^ 64 ∧
  (b.version = 0 → b.earliest_presentation_time < 2 ^ 32 ∧ b.first_offset < 2 ^ 32) ∧
  b.references.length ≤ 2 ^ 16 - 1 ∧ ∀ r ∈ b.references, r.wf

theorem readRefs_consumes (refs : List SidxReference) (h : ∀ r ∈ refs, r.wf) :
    Consumes (SidxBox.readRefs refs.length)
      ((refs.map SidxReference.encode).flatten) refs := by
  induction refs with
  | nil =>
    simp only [List.map_nil, List.flatten_nil, List.length_nil]
    exact consumes_pure []
  | cons r refs ih =>
    obtain ⟨h1, h2, h3, h4, h5, h6⟩ := h r (by simp)
    have hrest : ∀ x ∈ refs, x.wf := fun x hx => h x (by simp [hx])
    have hrw1 := unpack_packRefWord r.reference_type r.referenced_size h1 h2
    have hrw3 := unpack_packSapWord r.starts_with_sap r.sap_type r.sap_delta_time h4 h5 h6
    show Consumes (SidxBox.readRefs (refs.length + 1)) _ _
    have hchunk : ((r :: refs).map SidxReference.encode).flatten
        = beBytes 4 (packRefWord r.reference_type r.referenced_size) ++
          (beBytes 4 r.subsegment_duration ++
           (beBytes 4 (packSapWord r.starts_with_sap r.sap_type r.sap_delta_time) ++
            ((refs.map SidxReference.encode).flatten ++ []))) := by
      simp [SidxReference.encode]
    rw [hchunk]
    unfold SidxBox.readRefs
    refine consumes_pbind_eq
      (consumes_readBe 4 (packRefWord r.reference_type r.referenced_size) (by
        have := packRefWord_lt r.reference_type r.referenced_size
        norm_num at this ⊢
        omega)) rfl ?_
    refine consumes_pbind_eq
      (consumes_readBe 4 r.subsegment_duration (by norm_num at h3 ⊢; omega)) rfl ?_
    refine consumes_pbind_eq
      (consumes_readBe 4
        (packSapWord r.starts_with_sap r.sap_type r.sap_delta_time) (by
          have := packSapWord_lt r.starts_with_sap r.sap_type r.sap_delta_time
          norm_num at this ⊢
          omega)) rfl ?_
    refine consumes_pbind_eq (ih hrest) rfl ?_
    rw [hrw1, hrw3]
    exact consumes_pure (r :: refs)

theorem parseBody_consumes (b : SidxBox) (hwf : b.wf) :
    Consumes SidxBox.parseBody
      (beBytes 1 b.version ++
       (beBytes 3 0 ++
        (beBytes 4 b.reference_id ++
         (beBytes 4 b.timescale ++
          (writeVersionedU64 b.version b.earliest_presentation_time ++
           (writeVersionedU64 b.version b.first_offset ++
            (beBytes 2 0 ++
             (beBytes 2 (b.references.length % 2 ^ 16) ++
              (b.references.map SidxReference.encode).flatten))))))))
      { b with flags := 0 } := by
  obtain ⟨hv, hrid, hts, hept, hfo, hv0, hlen, hrefs⟩ := hwf
  have hcount : b.references.length % 2 ^ 16 = b.references.length := by
    norm_num at hlen ⊢
    omega
  unfold SidxBox.parseBody
  refine consumes_pbind_eq (consumes_readBe 1 b.version (by norm_num; omega)) rfl ?_
  refine consumes_pbind_eq (consumes_readBe 3 0 (by norm_num)) rfl ?_
  refine consumes_pbind_eq
    (consumes_readBe 4 b.reference_id (by norm_num at hrid ⊢; omega)) rfl ?_
  refine consumes_pbind_eq
    (consumes_readBe 4 b.timescale (by norm_num at hts ⊢; omega)) rfl ?_
  refine consumes_pbind_eq (consumes_readVersioned b.version
    b.earliest_presentation_time hept (fun hne => (hv0 (by omega)).1)) rfl ?_
  refine consumes_pbind_eq (consumes_readVersioned b.version
    b.first_offset hfo (fun hne => (hv0 (by omega)).2)) rfl ?_
  refine consumes_pbind_eq (consumes_readBe 2 0 (by norm_num)) rfl ?_
  refine consumes_pbind_eq (consumes_readBe 2 (b.references.length % 2 ^ 16) (by
    have := Nat.mod_lt b.references.length (show 0 < 2 ^ 16 by norm_num)
    norm_num at this ⊢
    omega)) rfl ?_
  rw [hcount]
  refine consumes_pbind_eq (readRefs_consumes b.references hrefs)
    (List.append_nil _).symm ?_
  exact consumes_pure _

theorem encodeRef_length (r : SidxReference) : (SidxReference.encode r).length = 12 := by
  unfold SidxReference.encode
  simp [length_beBytes]

theorem encodeRefs_length (refs : List SidxReference) :
    ((refs.map SidxReference.encode).flatten).length = 12 * refs.length := by
  induction refs with
  | nil => simp
  | cons r refs ih =>
    simp only [List.map_cons, List.flatten_cons, List.length_append,
      encodeRef_length, ih, List.length_cons]
    ring

theorem write_box_length (b : SidxBox) :
    (SidxBox.write_box b).1.length = b.get_size := by
  have hf := encodeRefs_length b.references
  unfold SidxBox.write_box BoxHeader.write SidxBox.get_size writeVersionedU64 HEADER_SIZE
  by_cases h : b.version = 1
  · rw [if_pos h, if_pos h, if_pos h]
    simp only [List.length_append, length_beBytes, hf]
    omega
  · rw [if_neg h, if_neg h, if_neg h]
    simp only [List.length_append, length_beBytes, hf]
    omega

theorem sidx_roundtrip_core (b : SidxBox) (hwf : b.wf) :
    SidxBox.read_box ⟨(SidxBox.write_box b).1, HEADER_SIZE⟩ b.get_size
      = .ok ({ b with flags := 0 }, ⟨(SidxBox.write_box b).1, b.get_size⟩) := by
  have hdrlen : (BoxHeader.write ⟨BoxType.SidxBox, b.get_size⟩).length = HEADER_SIZE := by
    unfold BoxHeader.write HEADER_SIZE
    simp [length_beBytes]
  have happ := parseBody_consumes b hwf (BoxHeader.write ⟨BoxType.SidxBox, b.get_size⟩) []
  rw [List.append_nil, hdrlen] at happ
  unfold SidxBox.read_box SidxBox.write_box
  dsimp only
  rw [happ]
  unfold skip_bytes_to box_start HEADER_SIZE
  simp

/-! ## Consumption of mvex child boxes -/

theorem consumes_header (sz tag : Nat) (hsz : sz < 256 ^ 4) (htag : tag < 256 ^ 4) :
    Consumes BoxHeader.read (beBytes 4 sz ++ beBytes 4 tag)
      ⟨BoxType.fromTag tag, sz⟩ := by
  unfold BoxHeader.read
  refine consumes_pbind_eq (consumes_readBe 4 sz hsz) rfl ?_
  refine consumes_pbind_eq (consumes_readBe 4 tag htag) (List.append_nil _).symm ?_
  exact consumes_pure _

theorem consumes_mehdRead (payload : List Byte) :
    Consumes (MehdBox.read_box (HEADER_SIZE + payload.length)) payload ⟨payload⟩ := by
  unfold MehdBox.read_box
  rw [show HEADER_SIZE + payload.length - HEADER_SIZE = payload.length by omega]
  refine consumes_pbind_eq (consumes_readBytesN payload) (List.append_nil _).symm ?_
  exact consumes_pure _

theorem consumes_trexRead (payload : List Byte) :
    Consumes (TrexBox.read_box (HEADER_SIZE + payload.length)) payload ⟨payload⟩ := by
  unfold TrexBox.read_box
  rw [show HEADER_SIZE + payload.length - HEADER_SIZE = payload.length by omega]
  refine consumes_pbind_eq (consumes_readBytesN payload) (List.append_nil _).symm ?_
  exact consumes_pure _

/-! ## Decoding a structured mvex byte range -/

theorem encodeChild_length (c : RawChild) :
    (RawChild.encode c).length = HEADER_SIZE + c.payload.length := by
  unfold RawChild.encode HEADER_SIZE
  simp [length_beBytes]
  omega

theorem encodeChildren_cons (c : RawChild) (cs : List RawChild) :
    encodeChildren (c :: cs) = RawChild.encode c ++ encodeChildren cs := by
  simp [encodeChildren]

theorem readLoop_encode (cs : List RawChild) :
    ∀ (fuel : Nat) (pre rest : List Byte) (parentSize : Nat)
      (mehd : Option MehdBox) (trex : List TrexBox),
    cs.length < fuel →
    (∀ c ∈ cs, RawChild.wf c) →
    (∀ c ∈ cs, HEADER_SIZE + c.payload.length ≤ parentSize) →
    MvexBox.readLoop fuel parentSize (pre.length + (encodeChildren cs).length)
        mehd trex ⟨pre ++ (encodeChildren cs ++ rest), pre.length⟩
      = .ok ((cs.foldl childAccStep (mehd, trex)).1,
             ((cs.foldl childAccStep (mehd, trex)).2,
              ⟨pre ++ (encodeChildren cs ++ rest),
               pre.length + (encodeChildren cs).length⟩)) := by
  induction cs with
  | nil =>
    intro fuel pre rest parentSize mehd trex hfuel hwf hsz
    obtain ⟨f, rfl⟩ : ∃ f, fuel = f + 1 := ⟨fuel - 1, by omega⟩
    unfold MvexBox.readLoop
    simp [encodeChildren]
  | cons c cs ih =>
    intro fuel pre rest parentSize mehd trex hfuel hwf hsz
    obtain ⟨f, rfl⟩ : ∃ f, fuel = f + 1 := ⟨fuel - 1, by omega⟩
    obtain ⟨hctag, hcsz⟩ := hwf c (by simp)
    have hwfr : ∀ x ∈ cs, RawChild.wf x := fun x hx => hwf x (by simp [hx])
    have hszr : ∀ x ∈ cs, HEADER_SIZE + x.payload.length ≤ parentSize :=
      fun x hx => hsz x (by simp [hx])
    have hcsize := hsz c (by simp)
    have hdata : encodeChildren (c :: cs) ++ rest
        = (beBytes 4 (HEADER_SIZE + c.payload.length) ++ beBytes 4 c.tag) ++
          (c.payload ++ (encodeChildren cs ++ rest)) := by
      simp [encodeChildren_cons, RawChild.encode]
    have hlen : (encodeChildren (c :: cs)).length
        = 8 + c.payload.length + (encodeChildren cs).length := by
      rw [encodeChildren_cons, List.length_append, encodeChild_length]
      simp [HEADER_SIZE]
    rw [hdata, hlen]
    unfold MvexBox.readLoop
    rw [if_pos (show pre.length < pre.length + (8 + c.payload.length + (encodeChildren cs).length) by omega)]
    have e1 := consumes_header (HEADER_SIZE + c.payload.length) c.tag hcsz hctag pre
      (c.payload ++ (encodeChildren cs ++ rest))
    simp only [List.length_append, length_beBytes] at e1
    rw [e1]
    have hnotlt : ¬ (parentSize < HEADER_SIZE + c.payload.length) := by omega
    dsimp only
    rw [if_neg hnotlt]
    by_cases hm : c.tag = 0x6d656864
    · have hft : BoxType.fromTag c.tag = .MehdBox := by rw [hm]; decide
      rw [hft]
      dsimp only
      have e2 := consumes_mehdRead c.payload
        (pre ++ (beBytes 4 (HEADER_SIZE + c.payload.length) ++ beBytes 4 c.tag))
        (encodeChildren cs ++ rest)
      simp only [List.append_assoc, List.length_append, length_beBytes] at e2 ⊢
      rw [e2]
      dsimp only
      rw [List.foldl_cons]
      have hstep : childAccStep (mehd, trex) c = (some ⟨c.payload⟩, trex) := by
        simp [childAccStep, hm]
      rw [hstep]
      have e3 := ih f
        (pre ++ (beBytes 4 (HEADER_SIZE + c.payload.length) ++ (beBytes 4 c.tag ++ c.payload)))
        rest parentSize (some ⟨c.payload⟩) trex (by simp at hfuel; omega) hwfr hszr
      simp only [List.append_assoc, List.length_append, length_beBytes] at e3
      rw [show pre.length + (8 + c.payload.length + (encodeChildren cs).length)
            = pre.length + (4 + (4 + c.payload.length)) + (encodeChildren cs).length by omega,
          show pre.length + (4 + 4) + c.payload.length
            = pre.length + (4 + (4 + c.payload.length)) by omega]
      exact e3
    by_cases ht : c.tag = 0x74726578
    · have hft : BoxType.fromTag c.tag = .TrexBox := by rw [ht]; decide
      rw [hft]
      dsimp only
      have e2 := consumes_trexRead c.payload
        (pre ++ (beBytes 4 (HEADER_SIZE + c.payload.length) ++ beBytes 4 c.tag))
        (encodeChildren cs ++ rest)
      simp only [List.append_assoc, List.length_append, length_beBytes] at e2 ⊢
      rw [e2]
      dsimp only
      rw [List.foldl_cons]
      have hstep : childAccStep (mehd, trex) c = (mehd, trex ++ [⟨c.payload⟩]) := by
        simp [childAccStep, hm, ht]
      rw [hstep]
      have e3 := ih f
        (pre ++ (beBytes 4 (HEADER_SIZE + c.payload.length) ++ (beBytes 4 c.tag ++ c.payload)))
        rest parentSize mehd (trex ++ [⟨c.payload⟩]) (by simp at hfuel; omega) hwfr hszr
      simp only [List.append_assoc, List.length_append, length_beBytes] at e3
      rw [show pre.length + (8 + c.payload.length + (encodeChildren cs).length)
            = pre.length + (4 + (4 + c.payload.length)) + (encodeChildren cs).length by omega,
          show pre.length + (4 + 4) + c.payload.length
            = pre.length + (4 + (4 + c.payload.length)) by omega]
      exact e3
    by_cases hv : c.tag = 0x6d766578
    · have hft : BoxType.fromTag c.tag = .MvexBox := by rw [hv]; decide
      rw [hft]
      dsimp only
      simp only [List.append_assoc, skip_box, skip_bytes_to, box_start, HEADER_SIZE]
      rw [List.foldl_cons]
      have hstep : childAccStep (mehd, trex) c = (mehd, trex) := by
        simp [childAccStep, hm, ht]
      rw [hstep]
      have e3 := ih f
        (pre ++ (beBytes 4 (HEADER_SIZE + c.payload.length) ++ (beBytes 4 c.tag ++ c.payload)))
        rest parentSize mehd trex (by simp at hfuel; omega) hwfr hszr
      simp only [List.append_assoc, List.length_append, length_beBytes] at e3
      rw [show pre.length + (8 + c.payload.length + (encodeChildren cs).length)
            = pre.length + (4 + (4 + c.payload.length)) + (encodeChildren cs).length by omega,
          show pre.length + (4 + 4) - 8 + (8 + c.payload.length)
            = pre.length + (4 + (4 + c.payload.length)) by omega]
      exact e3
    by_cases hx : c.tag = 0x73696478
    · have hft : BoxType.fromTag c.tag = .SidxBox := by rw [hx]; decide
      rw [hft]
      dsimp only
      simp only [List.append_assoc, skip_box, skip_bytes_to, box_start, HEADER_SIZE]
      rw [List.foldl_cons]
      have hstep : childAccStep (mehd, trex) c = (mehd, trex) := by
        simp [childAccStep, hm, ht]
      rw [hstep]
      have e3 := ih f
        (pre ++ (beBytes 4 (HEADER_SIZE + c.payload.length) ++ (beBytes 4 c.tag ++ c.payload)))
        rest parentSize mehd trex (by simp at hfuel; omega) hwfr hszr
      simp only [List.append_assoc, List.length_append, length_beBytes] at e3
      rw [show pre.length + (8 + c.payload.length + (encodeChildren cs).length)
            = pre.length + (4 + (4 + c.payload.length)) + (encodeChildren cs).length by omega,
          show pre.length + (4 + 4) - 8 + (8 + c.payload.length)
            = pre.length + (4 + (4 + c.payload.length)) by omega]
      exact e3
    · have hft : BoxType.fromTag c.tag = .UnknownBox c.tag := by
        unfold BoxType.fromTag
        rw [if_neg hv, if_neg hm, if_neg ht, if_neg hx]
      rw [hft]
      dsimp only
      simp only [List.append_assoc, skip_box, skip_bytes_to, box_start, HEADER_SIZE]
      rw [List.foldl_cons]
      have hstep : childAccStep (mehd, trex) c = (mehd, trex) := by
        simp [childAccStep, hm, ht]
      rw [hstep]
      have e3 := ih f
        (pre ++ (beBytes 4 (HEADER_SIZE + c.payload.length) ++ (beBytes 4 c.tag ++ c.payload)))
        rest parentSize mehd trex (by simp at hfuel; omega) hwfr hszr
      simp only [List.append_assoc, List.length_append, length_beBytes] at e3
      rw [show pre.length + (8 + c.payload.length + (encodeChildren cs).length)
            = pre.length + (4 + (4 + c.payload.length)) + (encodeChildren cs).length by omega,
          show pre.length + (4 + 4) - 8 + (8 + c.payload.length)
            = pre.length + (4 + (4 + c.payload.length)) by omega]
      exact e3

theorem encodeChildren_member_le (cs : List RawChild) (c : RawChild) (hc : c ∈ cs) :
    HEADER_SIZE + c.payload.length ≤ (encodeChildren cs).length := by
  induction cs with
  | nil => cases hc
  | cons d cs ih =>
    rw [encodeChildren_cons, List.length_append, encodeChild_length]
    rcases List.mem_cons.mp hc with rfl | hc
    · omega
    · have := ih hc
      omega

theorem foldl_childAccStep_snd (cs : List RawChild) :
    ∀ (m : Option MehdBox) (t : List TrexBox),
    (cs.foldl childAccStep (m, t)).2 = t ++ mvexTrexOf cs := by
  induction cs with
  | nil =>
    intro m t
    simp [mvexTrexOf]
  | cons c cs ih =>
    intro m t
    rw [List.foldl_cons]
    by_cases hm : c.tag = 0x6d656864
    · rw [show childAccStep (m, t) c = (some ⟨c.payload⟩, t) by simp [childAccStep, hm]]
      rw [ih]
      simp [mvexTrexOf, hm]
    · by_cases ht : c.tag = 0x74726578
      · rw [show childAccStep (m, t) c = (m, t ++ [⟨c.payload⟩]) by
          simp [childAccStep, hm, ht]]
        rw [ih]
        simp [mvexTrexOf, ht]
      · rw [show childAccStep (m, t) c = (m, t) by simp [childAccStep, hm, ht]]
        rw [ih]
        simp [mvexTrexOf, hm, ht]

theorem foldl_childAccStep_fst (cs : List RawChild) :
    ∀ (m : Option MehdBox) (t : List TrexBox),
    (cs.foldl childAccStep (m, t)).1 = (mvexMehdOf cs).or m := by
  induction cs with
  | nil =>
    intro m t
    simp [mvexMehdOf]
  | cons c cs ih =>
    intro m t
    rw [List.foldl_cons]
    unfold mvexMehdOf
    rw [List.foldl_cons]
    by_cases hm : c.tag = 0x6d656864
    · rw [show childAccStep (m, t) c = (some ⟨c.payload⟩, t) by simp [childAccStep, hm],
          show childAccStep (none, []) c = (some ⟨c.payload⟩, []) by simp [childAccStep, hm],
          ih, ih, Option.or_assoc, Option.or_some]
    · by_cases ht : c.tag = 0x74726578
      · rw [show childAccStep (m, t) c = (m, t ++ [⟨c.payload⟩]) by
            simp [childAccStep, hm, ht],
          show childAccStep (none, []) c = (none, [⟨c.payload⟩]) by
            simp [childAccStep, hm, ht],
          ih, ih, Option.or_none]
      · rw [show childAccStep (m, t) c = (m, t) by simp [childAccStep, hm, ht],
          show childAccStep (none, []) c = (none, []) by simp [childAccStep, hm, ht],
          ih, ih, Option.or_none]

theorem mvex_read_encode (cs : List RawChild) (fuel : Nat) (pre rest : List Byte)
    (hpre : HEADER_SIZE ≤ pre.length) (hfuel : cs.length < fuel)
    (hwf : ∀ c ∈ cs, RawChild.wf c) :
    MvexBox.read_box fuel ⟨pre ++ (encodeChildren cs ++ rest), pre.length⟩
        (HEADER_SIZE + (encodeChildren cs).length)
      = if mvexTrexOf cs = [] then .error (.boxNotFound BoxType.TrexBox.toTag)
        else .ok ({ mehd := mvexMehdOf cs, trex := mvexTrexOf cs },
                  ⟨pre ++ (encodeChildren cs ++ rest),
                   pre.length + (encodeChildren cs).length⟩) := by
  have hsz : ∀ c ∈ cs, HEADER_SIZE + c.payload.length
      ≤ HEADER_SIZE + (encodeChildren cs).length := by
    intro c hc
    have := encodeChildren_member_le cs c hc
    omega
  have hloop := readLoop_encode cs fuel pre rest
    (HEADER_SIZE + (encodeChildren cs).length) none [] hfuel hwf hsz
  unfold MvexBox.read_box
  have hstart : box_start ⟨pre ++ (encodeChildren cs ++ rest), pre.length⟩
      + (HEADER_SIZE + (encodeChildren cs).length)
      = pre.length + (encodeChildren cs).length := by
    unfold box_start HEADER_SIZE
    unfold HEADER_SIZE at hpre
    dsimp only
    omega
  rw [hstart, hloop]
  dsimp only
  rw [foldl_childAccStep_snd, foldl_childAccStep_fst]
  simp only [List.nil_append, Option.or_none]
  by_cases h : mvexTrexOf cs = []
  · rw [if_pos h]
    rw [show (mvexTrexOf cs).isEmpty = true by simp [h]]
    rfl
  · rw [if_neg h]
    rw [show (mvexTrexOf cs).isEmpty = false by simp [h]]
    rfl

/-! ## Bounds satisfied by every decoded reference record -/

theorem unpack_bounds (w1 w3 : Nat) (hw1 : w1 < 2 ^ 32) (hw3 : w3 < 2 ^ 32) :
    (unpackRefWord w1).1 ≤ 1 ∧ (unpackRefWord w1).2 < 2 ^ 31 ∧
    (unpackSapWord w3).1 ≤ 1 ∧ (unpackSapWord w3).2.1 ≤ 7 ∧
    (unpackSapWord w3).2.2 < 2 ^ 28 := by
  unfold unpackRefWord unpackSapWord
  have e31 : (0x7FFFFFFF : Nat) = 2 ^ 31 - 1 := by norm_num
  have e28 : (0x0FFFFFFF : Nat) = 2 ^ 28 - 1 := by norm_num
  have e3 : (0x7 : Nat) = 2 ^ 3 - 1 := by norm_num
  have d1 : w1 >>> 31 < 2 := by
    rw [Nat.shiftRight_eq_div_pow]
    apply Nat.div_lt_of_lt_mul
    norm_num at hw1 ⊢
    omega
  have d3 : w3 >>> 31 < 2 := by
    rw [Nat.shiftRight_eq_div_pow]
    apply Nat.div_lt_of_lt_mul
    norm_num at hw3 ⊢
    omega
  refine ⟨?_, ?_, ?_, ?_, ?_⟩
  · have := Nat.mod_le (w1 >>> 31) (2 ^ 8)
    omega
  · rw [e31, Nat.and_pow_two_sub_one_eq_mod]
    exact Nat.mod_lt _ (by norm_num)
  · have := Nat.mod_le (w3 >>> 31) (2 ^ 8)
    omega
  · rw [e3, Nat.and_pow_two_sub_one_eq_mod]
    have h8 : (w3 >>> 28) % 2 ^ 3 < 2 ^ 3 := Nat.mod_lt _ (by norm_num)
    have := Nat.mod_le ((w3 >>> 28) % 2 ^ 3) (2 ^ 8)
    norm_num at h8 ⊢
    omega
  · rw [e28, Nat.and_pow_two_sub_one_eq_mod]
    exact Nat.mod_lt _ (by norm_num)

theorem readRefs_bounds :
    ∀ (n : Nat) (s s1 : ByteStream) (refs : List SidxReference),
    SidxBox.readRefs n s = .ok (refs, s1) →
    ∀ r ∈ refs, r.reference_type ≤ 1 ∧ r.referenced_size < 2 ^ 31 ∧
      r.starts_with_sap ≤ 1 ∧ r.sap_type ≤ 7 ∧ r.sap_delta_time < 2 ^ 28 := by
  intro n
  induction n with
  | zero =>
    intro s s1 refs h
    unfold SidxBox.readRefs at h
    injection h with h
    injection h with h1 h2
    rw [← h1]
    simp
  | succ n ih =>
    intro s s1 refs h
    unfold SidxBox.readRefs pbind at h
    split at h
    · exact absurd h (by simp)
    rename_i w1 sA hw1
    try dsimp only at h
    split at h
    · exact absurd h (by simp)
    rename_i sd sB hsd
    try dsimp only at h
    split at h
    · exact absurd h (by simp)
    rename_i w3 sC hw3
    try dsimp only at h
    split at h
    · exact absurd h (by simp)
    rename_i rest sD hrest
    try dsimp only at h
    injection h with h
    injection h with h1 h2
    rw [← h1]
    intro r hr
    rcases List.mem_cons.mp hr with rfl | hr
    · have hb1 : w1 < 2 ^ 32 := by
        have := (readBe_ok hw1).1
        norm_num at this ⊢
        omega
      have hb3 : w3 < 2 ^ 32 := by
        have := (readBe_ok hw3).1
        norm_num at this ⊢
        omega
      exact unpack_bounds w1 w3 hb1 hb3
    · exact ih _ _ _ hrest r hr

theorem parseBody_ok {s s1 : ByteStream} {b : SidxBox}
    (h : SidxBox.parseBody s = .ok (b, s1)) :
    b.flags = beVal ((s.data.drop (s.pos + 1)).take 3) ∧
    (∀ r ∈ b.references, r.reference_type ≤ 1 ∧ r.referenced_size < 2 ^ 31 ∧
      r.starts_with_sap ≤ 1 ∧ r.sap_type ≤ 7 ∧ r.sap_delta_time < 2 ^ 28) := by
  unfold SidxBox.parseBody pbind at h
  split at h
  · exact absurd h (by simp)
  rename_i version sA hver
  try dsimp only at h
  split at h
  · exact absurd h (by simp)
  rename_i flags sB hflags
  try dsimp only at h
  split at h
  · exact absurd h (by simp)
  rename_i rid sC hrid
  try dsimp only at h
  split at h
  · exact absurd h (by simp)
  rename_i ts sD hts
  try dsimp only at h
  split at h
  · exact absurd h (by simp)
  rename_i ept sE hept
  try dsimp only at h
  split at h
  · exact absurd h (by simp)
  rename_i fo sF hfo
  try dsimp only at h
  split at h
  · exact absurd h (by simp)
  rename_i res sG hres
  try dsimp only at h
  split at h
  · exact absurd h (by simp)
  rename_i cnt sH hcnt
  try dsimp only at h
  split at h
  · exact absurd h (by simp)
  rename_i refs sI hrefs
  try dsimp only at h
  injection h with h
  injection h with h1 h2
  rw [← h1]
  constructor
  · obtain ⟨hv1, hv2, hv3⟩ := readBe_ok hver
    obtain ⟨hf1, hf2, hf3⟩ := readBe_ok hflags
    rw [hf2, hv3]
  · exact readRefs_bounds cnt sH sI refs hrefs

/-! ## Remaining support lemmas -/

theorem write_drop9 (x y v z : Nat) (R : List Byte) :
    (((beBytes 4 x ++ beBytes 4 y) ++ (beBytes 1 v ++ (beBytes 3 z ++ R))).drop 9).take 3
      = beBytes 3 z := by
  rw [show (9 : Nat) = 8 + 1 from rfl, ← List.drop_drop,
      List.drop_left' (show (beBytes 4 x ++ beBytes 4 y).length = 8 by
        simp [length_beBytes]),
      List.drop_left' (show (beBytes 1 v).length = 1 from length_beBytes 1 v),
      List.take_left' (show (beBytes 3 z).length = 3 from length_beBytes 3 z)]

theorem write_flags_zero (b : SidxBox) :
    ((SidxBox.write_box b).1.drop 9).take 3 = [0, 0, 0] := by
  unfold SidxBox.write_box BoxHeader.write
  dsimp only
  rw [write_drop9]
  decide

theorem foldl_childAccStep_fst_p (cs : List RawChild)
    (p : Option MehdBox × List TrexBox) :
    (cs.foldl childAccStep p).1 = (mvexMehdOf cs).or p.1 := by
  obtain ⟨m, t⟩ := p
  exact foldl_childAccStep_fst cs m t

theorem mvexMehdOf_append (cs1 cs2 : List RawChild) :
    mvexMehdOf (cs1 ++ cs2) = (mvexMehdOf cs2).or (mvexMehdOf cs1) := by
  unfold mvexMehdOf
  rw [List.foldl_append]
  exact foldl_childAccStep_fst_p cs2 _

theorem mvexTrexOf_append (cs1 cs2 : List RawChild) :
    mvexTrexOf (cs1 ++ cs2) = mvexTrexOf cs1 ++ mvexTrexOf cs2 := by
  simp [mvexTrexOf]

theorem mvexTrexOf_other (u : RawChild) (hu : u.tag ≠ 0x74726578) :
    mvexTrexOf [u] = [] := by
  simp [mvexTrexOf, hu]

theorem mvexMehdOf_other (u : RawChild) (hu : u.tag ≠ 0x6d656864) :
    mvexMehdOf [u] = none := by
  unfold mvexMehdOf
  simp only [List.foldl_cons, List.foldl_nil]
  unfold childAccStep
  rw [if_neg hu]
  split <;> rfl

theorem foldl_box_size (l : List TrexBox) :
    ∀ a : Nat, l.foldl (fun a v => a + v.box_size) a
      = a + (l.map TrexBox.box_size).sum := by
  induction l with
  | nil =>
    intro a
    simp
  | cons x l ih =>
    intro a
    rw [List.foldl_cons, ih]
    simp [List.map_cons, List.sum_cons]
    omega

/-- The documented 44-byte sample segment-index box of the unit test in
`sidx.rs` (lines 168-182). -/
def sampleSidxBytes : List Byte :=
  [0x00, 0x00, 0x00, 0x2c, 0x73, 0x69, 0x64, 0x78,
   0x00, 0x00, 0x00, 0x00,
   0x00, 0x00, 0x00, 0x01,
   0x00, 0x00, 0x03, 0xe8,
   0x00, 0x00, 0x00, 0x00,
   0x00, 0x00, 0x00, 0x64,
   0x00, 0x00, 0x00, 0x01,
   0x80, 0x00, 0x00, 0x32,
   0x00, 0x00, 0x03, 0xe8,
   0x00, 0x00, 0x00, 0x00]

/-! ## The claims -/

/-- C4: for all v1 in [0,1] and v2 in [0,2^31-1], packing v1 and v2 into a
32-bit word with the (1,31)-bit split used on encode and then unpacking that
word with the shifts and masks used on decode returns exactly (v1, v2);
analogously, for all v1 in [0,1], v2 in [0,7], v3 in [0,2^28-1], the
(1,3,28)-bit pack followed by unpack returns exactly (v1, v2, v3). -/
theorem c4_bitfield_roundtrip :
    (∀ v1 v2 : Nat, v1 ≤ 1 → v2 < 2 ^ 31 →
      unpackRefWord (packRefWord v1 v2) = (v1, v2)) ∧
    (∀ v1 v2 v3 : Nat, v1 ≤ 1 → v2 ≤ 7 → v3 < 2 ^ 28 →
      unpackSapWord (packSapWord v1 v2 v3) = (v1, v2, v3)) :=
  ⟨unpack_packRefWord, unpack_packSapWord⟩

/-- Witness for C4 at concrete inputs. -/
theorem c4_bitfield_roundtrip_witness :
    unpackRefWord (packRefWord 1 12345) = (1, 12345) ∧
    unpackSapWord (packSapWord 1 5 67890) = (1, 5, 67890) :=
  ⟨c4_bitfield_roundtrip.1 1 12345 (by decide) (by decide),
   c4_bitfield_roundtrip.2 1 5 67890 (by decide) (by decide) (by decide)⟩

/-- C5: for every MvexBox value, box_size() equals the 8-byte header size
plus the box_size of the optional mehd child when present (0 otherwise) plus
the sum of the box_size of each trex list entry, computed purely (no bytes
are written). -/
theorem c5_mvex_size_additivity (m : MvexBox) :
    MvexBox.get_size m
      = HEADER_SIZE
        + (match m.mehd with
           | some x => x.box_size
           | none => 0)
        + (m.trex.map TrexBox.box_size).sum := by
  unfold MvexBox.get_size
  rw [foldl_box_size]
  rcases hm : m.mehd with _ | x <;> simp [hm]

/-- C6: the two 64-bit sidx fields are written as 8 big-endian bytes when
version == 1 and otherwise as only the low 32 bits (silent narrowing, no
range check), and on decode are read as 8 bytes when version == 1 and
otherwise as 4 bytes zero-extended; consequently values above 2^32-1 do not
survive a version-0 round trip. -/
theorem c6_versioned_field_codec (version v : Nat) (h64 : v < 2 ^ 64) :
    (writeVersionedU64 version v).length = (if version = 1 then 8 else 4) ∧
    (version = 1 → writeVersionedU64 version v = beBytes 8 v) ∧
    (version ≠ 1 → writeVersionedU64 version v = beBytes 4 (v % 2 ^ 32)) ∧
    Consumes (readVersionedU64 version) (writeVersionedU64 version v)
      (if version = 1 then v else v % 2 ^ 32) ∧
    (version ≠ 1 → 2 ^ 32 ≤ v → (if version = 1 then v else v % 2 ^ 32) ≠ v) := by
  refine ⟨?_, ?_, ?_, ?_, ?_⟩
  · unfold writeVersionedU64
    by_cases h : version = 1 <;> simp [h, length_beBytes]
  · intro h
    unfold writeVersionedU64
    rw [if_pos h]
  · intro h
    unfold writeVersionedU64
    rw [if_neg h]
  · by_cases h : version = 1
    · rw [if_pos h]
      unfold readVersionedU64 writeVersionedU64
      rw [if_pos h, if_pos h]
      exact consumes_readBe 8 v (by norm_num at h64 ⊢; omega)
    · rw [if_neg h]
      unfold readVersionedU64 writeVersionedU64
      rw [if_neg h, if_neg h]
      refine consumes_readBe 4 (v % 2 ^ 32) ?_
      have := Nat.mod_lt v (show 0 < 2 ^ 32 by norm_num)
      norm_num at this ⊢
      omega
  · intro h1 h2
    rw [if_neg h1]
    have := Nat.mod_lt v (show 0 < 2 ^ 32 by norm_num)
    norm_num at this h2 ⊢
    omega

/-- Witness for C6 at version 0 and a value of 2^32 + 5. -/
theorem c6_versioned_field_codec_witness :
    (writeVersionedU64 0 (2 ^ 32 + 5)).length = (if (0 : Nat) = 1 then 8 else 4) ∧
    writeVersionedU64 0 (2 ^ 32 + 5) = beBytes 4 ((2 ^ 32 + 5) % 2 ^ 32) ∧
    (if (0 : Nat) = 1 then 2 ^ 32 + 5 else (2 ^ 32 + 5) % 2 ^ 32) ≠ 2 ^ 32 + 5 := by
  have h := c6_versioned_field_codec 0 (2 ^ 32 + 5) (by norm_num)
  exact ⟨h.1, h.2.2.1 (by decide), h.2.2.2.2 (by decide) (by norm_num)⟩

/-- C7: decoding the documented 44-byte sample segment-index box yields
exactly version=0, reference_id=1, timescale=1000,
earliest_presentation_time=0, first_offset=100, and one reference with
reference_type=1, referenced_size=50, subsegment_duration=1000,
starts_with_sap=0, sap_type=0, sap_delta_time=0; re-encoding that value
reproduces the original 44 bytes byte-for-byte with write_box returning 44. -/
theorem c7_sample_sidx :
    SidxBox.read_box ⟨sampleSidxBytes, 8⟩ 44
        = .ok (⟨0, 0, 1, 1000, 0, 100, [⟨1, 50, 1000, 0, 0, 0⟩]⟩,
               ⟨sampleSidxBytes, 44⟩) ∧
    SidxBox.write_box ⟨0, 0, 1, 1000, 0, 100, [⟨1, 50, 1000, 0, 0, 0⟩]⟩
        = (sampleSidxBytes, 44) := by
  constructor <;> decide

/-- C9: every SidxReference contained in a SidxBox returned by read_box
satisfies the bit-width bounds of the wire format, regardless of the input
bytes. -/
theorem c9_decoded_reference_bounds (s : ByteStream) (size : Nat)
    (b : SidxBox) (s1 : ByteStream)
    (h : SidxBox.read_box s size = .ok (b, s1)) :
    ∀ r ∈ b.references, r.reference_type ≤ 1 ∧ r.referenced_size < 2 ^ 31 ∧
      r.starts_with_sap ≤ 1 ∧ r.sap_type ≤ 7 ∧ r.sap_delta_time < 2 ^ 28 := by
  unfold SidxBox.read_box at h
  split at h
  · exact absurd h (by simp)
  · rename_i b0 s0 hbody
    injection h with h
    injection h with h1 h2
    exact h1 ▸ (parseBody_ok hbody).2

/-- Witness for C9 at the sample box. -/
theorem c9_decoded_reference_bounds_witness :
    (⟨1, 50, 1000, 0, 0, 0⟩ : SidxReference).reference_type ≤ 1 ∧
    (⟨1, 50, 1000, 0, 0, 0⟩ : SidxReference).referenced_size < 2 ^ 31 ∧
    (⟨1, 50, 1000, 0, 0, 0⟩ : SidxReference).starts_with_sap ≤ 1 ∧
    (⟨1, 50, 1000, 0, 0, 0⟩ : SidxReference).sap_type ≤ 7 ∧
    (⟨1, 50, 1000, 0, 0, 0⟩ : SidxReference).sap_delta_time < 2 ^ 28 :=
  c9_decoded_reference_bounds ⟨sampleSidxBytes, 8⟩ 44
    ⟨0, 0, 1, 1000, 0, 100, [⟨1, 50, 1000, 0, 0, 0⟩]⟩ ⟨sampleSidxBytes, 44⟩
    (by decide) ⟨1, 50, 1000, 0, 0, 0⟩ (by decide)

/-- C10: write_box always emits the 3-byte flags field as zero regardless of
the value stored in self.flags, while read_box stores in the flags field
whatever 3-byte value it read from the stream; hence after encode-then-decode
the resulting flags field is always 0 for every input value of self.flags. -/
theorem c10_flags_behavior :
    (∀ b : SidxBox, ((SidxBox.write_box b).1.drop 9).take 3 = [0, 0, 0]) ∧
    (∀ (s : ByteStream) (size : Nat) (b : SidxBox) (s1 : ByteStream),
      SidxBox.read_box s size = .ok (b, s1) →
      b.flags = beVal ((s.data.drop (s.pos + 1)).take 3)) ∧
    (∀ (b : SidxBox) (size : Nat) (b1 : SidxBox) (s1 : ByteStream),
      SidxBox.read_box ⟨(SidxBox.write_box b).1, HEADER_SIZE⟩ size = .ok (b1, s1) →
      b1.flags = 0) := by
  have part2 : ∀ (s : ByteStream) (size : Nat) (b : SidxBox) (s1 : ByteStream),
      SidxBox.read_box s size = .ok (b, s1) →
      b.flags = beVal ((s.data.drop (s.pos + 1)).take 3) := by
    intro s size b s1 h
    unfold SidxBox.read_box at h
    split at h
    · exact absurd h (by simp)
    · rename_i b0 s0 hbody
      injection h with h
      injection h with h1 h2
      exact h1 ▸ (parseBody_ok hbody).1
  refine ⟨write_flags_zero, part2, ?_⟩
  intro b size b1 s1 h
  have hflags := part2 _ _ _ _ h
  rw [hflags]
  dsimp only
  rw [show HEADER_SIZE + 1 = 9 from rfl, write_flags_zero b]
  decide

/-- Witness for C10 at the sample box. -/
theorem c10_flags_behavior_witness :
    (⟨0, 0, 1, 1000, 0, 100, [⟨1, 50, 1000, 0, 0, 0⟩]⟩ : SidxBox).flags
        = beVal ((sampleSidxBytes.drop (8 + 1)).take 3) ∧
    (⟨0, 0, 1, 1000, 0, 100, [⟨1, 50, 1000, 0, 0, 0⟩]⟩ : SidxBox).flags = 0 :=
  ⟨c10_flags_behavior.2.1 ⟨sampleSidxBytes, 8⟩ 44
    ⟨0, 0, 1, 1000, 0, 100, [⟨1, 50, 1000, 0, 0, 0⟩]⟩ ⟨sampleSidxBytes, 44⟩
    (by decide),
   c10_flags_behavior.2.2 ⟨0, 0, 1, 1000, 0, 100, [⟨1, 50, 1000, 0, 0, 0⟩]⟩ 44
    ⟨0, 0, 1, 1000, 0, 100, [⟨1, 50, 1000, 0, 0, 0⟩]⟩
    ⟨(SidxBox.write_box ⟨0, 0, 1, 1000, 0, 100, [⟨1, 50, 1000, 0, 0, 0⟩]⟩).1, 44⟩
    (by decide)⟩

/-- C1 (amended): for every validly constructed SidxBox (version 0 or 1,
each field within its declared bit width, at most 2^16-1 references, for
version 0 the two 64-bit fields below 2^32) whose flags field additionally
is 0, encoding with write_box and then decoding the produced bytes with
read_box yields a value equal in every field to the original, and the number
of bytes written equals box_size() computed before any byte was written
(write_box also returns that size).  The amendment is forced by the flags
field: write_box emits zero flags, so a nonzero flags value does not
round-trip (see the counterexample). -/
theorem c1_sidx_roundtrip_amended (b : SidxBox) (hwf : b.wf)
    (hflags : b.flags = 0) :
    SidxBox.read_box ⟨(SidxBox.write_box b).1, HEADER_SIZE⟩ b.get_size
        = .ok (b, ⟨(SidxBox.write_box b).1, b.get_size⟩) ∧
    (SidxBox.write_box b).1.length = b.get_size ∧
    (SidxBox.write_box b).2 = b.get_size := by
  have hb : ({ b with flags := 0 } : SidxBox) = b := by
    cases b
    simp_all
  have hcore := sidx_roundtrip_core b hwf
  rw [hb] at hcore
  exact ⟨hcore, write_box_length b, rfl⟩

/-- C1 counterexample: the box with flags = 1 (and every field listed in the
claim within its declared bit width) decodes, after encoding, to a box whose
flags field is 0, so the decoded value is not equal in every field to the
original. -/
theorem c1_sidx_roundtrip_counterexample :
    SidxBox.read_box
        ⟨(SidxBox.write_box ⟨0, 1, 0, 0, 0, 0, []⟩).1, HEADER_SIZE⟩
        (SidxBox.get_size ⟨0, 1, 0, 0, 0, 0, []⟩)
      = .ok (⟨0, 0, 0, 0, 0, 0, []⟩,
             ⟨(SidxBox.write_box ⟨0, 1, 0, 0, 0, 0, []⟩).1,
              SidxBox.get_size ⟨0, 1, 0, 0, 0, 0, []⟩⟩) ∧
    (⟨0, 0, 0, 0, 0, 0, []⟩ : SidxBox) ≠ ⟨0, 1, 0, 0, 0, 0, []⟩ := by
  constructor <;> decide

/-- Witness for the amended C1 at a concrete version-1 box. -/
theorem c1_sidx_roundtrip_witness :
    SidxBox.read_box
        ⟨(SidxBox.write_box ⟨1, 0, 7, 1000, 2 ^ 33, 5, [⟨1, 50, 9, 1, 7, 8⟩]⟩).1,
         HEADER_SIZE⟩
        (SidxBox.get_size ⟨1, 0, 7, 1000, 2 ^ 33, 5, [⟨1, 50, 9, 1, 7, 8⟩]⟩)
        = .ok (⟨1, 0, 7, 1000, 2 ^ 33, 5, [⟨1, 50, 9, 1, 7, 8⟩]⟩,
               ⟨(SidxBox.write_box ⟨1, 0, 7, 1000, 2 ^ 33, 5, [⟨1, 50, 9, 1, 7, 8⟩]⟩).1,
                SidxBox.get_size ⟨1, 0, 7, 1000, 2 ^ 33, 5, [⟨1, 50, 9, 1, 7, 8⟩]⟩⟩) ∧
    (SidxBox.write_box ⟨1, 0, 7, 1000, 2 ^ 33, 5, [⟨1, 50, 9, 1, 7, 8⟩]⟩).1.length
        = SidxBox.get_size ⟨1, 0, 7, 1000, 2 ^ 33, 5, [⟨1, 50, 9, 1, 7, 8⟩]⟩ ∧
    (SidxBox.write_box ⟨1, 0, 7, 1000, 2 ^ 33, 5, [⟨1, 50, 9, 1, 7, 8⟩]⟩).2
        = SidxBox.get_size ⟨1, 0, 7, 1000, 2 ^ 33, 5, [⟨1, 50, 9, 1, 7, 8⟩]⟩ :=
  c1_sidx_roundtrip_amended ⟨1, 0, 7, 1000, 2 ^ 33, 5, [⟨1, 50, 9, 1, 7, 8⟩]⟩
    (by unfold SidxBox.wf SidxReference.wf; decide) rfl

/-- C2 (amended): while decoding the mvex container, whenever the child
header just read declares a size exceeding the parent's declared total size,
the loop fails immediately with the InvalidData error, before interpreting
the child's payload.  The amendment is forced: the code compares the child's
size against the parent's full declared size, not against the byte budget
remaining at the point the header is read (see the counterexample). -/
theorem c2_budget_check_amended (fuel parentSize endPos : Nat)
    (mehd : Option MehdBox) (trex : List TrexBox) (s s1 : ByteStream)
    (header : BoxHeader) (hpos : s.pos < endPos)
    (hread : BoxHeader.read s = .ok (header, s1))
    (hsz : parentSize < header.size) :
    MvexBox.readLoop (fuel + 1) parentSize endPos mehd trex s
      = .error (.invalidData "mvex box contains a box with a larger size than it") := by
  unfold MvexBox.readLoop
  rw [if_pos hpos, hread]
  dsimp only
  rw [if_pos hsz]

/-- The 32-byte stream of the C2 counterexample: after the 8-byte parent
header, a 16-byte trex child, then a child tagged `free` declaring size 30
while only 16 bytes of the parent's 40-byte budget remain. -/
def c2Bytes : List Byte :=
  [0x00, 0x00, 0x00, 0x00, 0x00, 0x00, 0x00, 0x00,
   0x00, 0x00, 0x00, 0x10, 0x74, 0x72, 0x65, 0x78,
   0x01, 0x02, 0x03, 0x04, 0x05, 0x06, 0x07, 0x08,
   0x00, 0x00, 0x00, 0x1e, 0x66, 0x72, 0x65, 0x65]

/-- C2 counterexample: in a parent of declared size 40, the child header read
at offset 24 declares size 30 (shown by the third conjunct), which exceeds
the remaining budget 40 - 24 = 16, yet read_box succeeds instead of failing
with InvalidData, because 30 does not exceed the parent's total size 40. -/
theorem c2_budget_check_counterexample :
    MvexBox.read_box 10 ⟨c2Bytes, 8⟩ 40
        = .ok (⟨none, [⟨[0x01, 0x02, 0x03, 0x04, 0x05, 0x06, 0x07, 0x08]⟩]⟩,
               ⟨c2Bytes, 40⟩) ∧
    beVal ((c2Bytes.drop 24).take 4) = 30 ∧
    40 - 24 < 30 ∧ (30 : Nat) ≤ 40 := by
  refine ⟨by decide, by decide, by decide, by decide⟩

/-- Witness for the amended C2: a child declaring size 99 in a parent of
declared size 20 makes the loop fail with InvalidData. -/
theorem c2_budget_check_amended_witness :
    MvexBox.readLoop (5 + 1) 20 12 none []
        ⟨[0x00, 0x00, 0x00, 0x63, 0x74, 0x72, 0x65, 0x78], 0⟩
      = .error (.invalidData "mvex box contains a box with a larger size than it") :=
  c2_budget_check_amended 5 20 12 none []
    ⟨[0x00, 0x00, 0x00, 0x63, 0x74, 0x72, 0x65, 0x78], 0⟩
    ⟨[0x00, 0x00, 0x00, 0x63, 0x74, 0x72, 0x65, 0x78], 8⟩
    ⟨BoxType.TrexBox, 0x63⟩ (by decide) (by decide) (by decide)

/-- C3: MvexBox::read_box never returns a box whose trex list is empty, and
decoding any well-formed child byte range that contains zero trex children
fails with BoxNotFound for the trex tag. -/
theorem c3_mvex_nonempty_trex :
    (∀ (fuel : Nat) (s : ByteStream) (size : Nat) (m : MvexBox) (s1 : ByteStream),
      MvexBox.read_box fuel s size = .ok (m, s1) → m.trex ≠ []) ∧
    (∀ (cs : List RawChild) (fuel : Nat) (pre rest : List Byte),
      HEADER_SIZE ≤ pre.length → cs.length < fuel →
      (∀ c ∈ cs, RawChild.wf c) → mvexTrexOf cs = [] →
      MvexBox.read_box fuel ⟨pre ++ (encodeChildren cs ++ rest), pre.length⟩
          (HEADER_SIZE + (encodeChildren cs).length)
        = .error (.boxNotFound BoxType.TrexBox.toTag)) := by
  constructor
  · intro fuel s size m s1 h
    unfold MvexBox.read_box at h
    split at h
    · exact absurd h (by simp)
    · rename_i mehd trex s0 hloop
      split at h
      · exact absurd h (by simp)
      · rename_i hne
        injection h with h
        injection h with h1 h2
        rw [← h1]
        simpa using hne
  · intro cs fuel pre rest hpre hfuel hwf htrex
    rw [mvex_read_encode cs fuel pre rest hpre hfuel hwf, if_pos htrex]

/-- Witness for C3: a successful decode has a nonempty trex list, and a
childless-of-trex byte range (one `free` child) is rejected with BoxNotFound. -/
theorem c3_mvex_nonempty_trex_witness :
    (⟨none, [⟨[0x01, 0x02, 0x03, 0x04, 0x05, 0x06, 0x07, 0x08]⟩]⟩ : MvexBox).trex ≠ [] ∧
    MvexBox.read_box 2
        ⟨[0x00, 0x00, 0x00, 0x00, 0x00, 0x00, 0x00, 0x00] ++
          (encodeChildren [⟨0x66726565, []⟩] ++ []),
         List.length [(0x00 : Byte), 0x00, 0x00, 0x00, 0x00, 0x00, 0x00, 0x00]⟩
        (HEADER_SIZE + (encodeChildren [⟨0x66726565, []⟩]).length)
      = .error (.boxNotFound BoxType.TrexBox.toTag) :=
  ⟨c3_mvex_nonempty_trex.1 10 ⟨c2Bytes, 8⟩ 40
    ⟨none, [⟨[0x01, 0x02, 0x03, 0x04, 0x05, 0x06, 0x07, 0x08]⟩]⟩ ⟨c2Bytes, 40⟩
    (by decide),
   c3_mvex_nonempty_trex.2 [⟨0x66726565, []⟩] 2
    [0x00, 0x00, 0x00, 0x00, 0x00, 0x00, 0x00, 0x00] []
    (by decide) (by decide) (by unfold RawChild.wf; decide) (by decide)⟩

/-- C8: for every mvex byte range that contains, between recognized children,
a child with an unrecognized type tag and a well-formed declared size,
read_box succeeds, the unrecognized child's payload is skipped without
interpretation and contributes nothing to the result, and the recognized
children appear in the result exactly as in the range without that child:
the trex children in their original order with unchanged payloads, and the
last mehd child in the optional slot. -/
theorem c8_unknown_child_skipped (cs1 cs2 : List RawChild) (u : RawChild)
    (fuel : Nat) (pre rest : List Byte)
    (hpre : HEADER_SIZE ≤ pre.length)
    (hfuel : (cs1 ++ [u] ++ cs2).length < fuel)
    (hwf : ∀ c ∈ cs1 ++ [u] ++ cs2, RawChild.wf c)
    (humehd : u.tag ≠ 0x6d656864) (hutrex : u.tag ≠ 0x74726578)
    (htrex : mvexTrexOf (cs1 ++ cs2) ≠ []) :
    MvexBox.read_box fuel
        ⟨pre ++ (encodeChildren (cs1 ++ [u] ++ cs2) ++ rest), pre.length⟩
        (HEADER_SIZE + (encodeChildren (cs1 ++ [u] ++ cs2)).length)
      = .ok ({ mehd := mvexMehdOf (cs1 ++ cs2), trex := mvexTrexOf (cs1 ++ cs2) },
             ⟨pre ++ (encodeChildren (cs1 ++ [u] ++ cs2) ++ rest),
              pre.length + (encodeChildren (cs1 ++ [u] ++ cs2)).length⟩) := by
  have htr : mvexTrexOf (cs1 ++ [u] ++ cs2) = mvexTrexOf (cs1 ++ cs2) := by
    rw [mvexTrexOf_append, mvexTrexOf_append, mvexTrexOf_other u hutrex,
        List.append_nil, ← mvexTrexOf_append]
  have hmd : mvexMehdOf (cs1 ++ [u] ++ cs2) = mvexMehdOf (cs1 ++ cs2) := by
    rw [mvexMehdOf_append, mvexMehdOf_append, mvexMehdOf_other u humehd,
        Option.none_or, ← mvexMehdOf_append]
  rw [mvex_read_encode _ fuel pre rest hpre hfuel hwf, htr, hmd, if_neg htrex]

/-- Witness for C8: a trex child, an unknown `free` child, then a mehd child;
decoding ignores the `free` child and returns the trex and mehd children. -/
theorem c8_unknown_child_skipped_witness :
    MvexBox.read_box 4
        ⟨[0x00, 0x00, 0x00, 0x00, 0x00, 0x00, 0x00, 0x00] ++
          (encodeChildren ([⟨0x74726578, [0x01, 0x02]⟩] ++ [⟨0x66726565, [0x03]⟩]
              ++ [⟨0x6d656864, [0x04]⟩]) ++ []),
         List.length [(0x00 : Byte), 0x00, 0x00, 0x00, 0x00, 0x00, 0x00, 0x00]⟩
        (HEADER_SIZE +
          (encodeChildren ([⟨0x74726578, [0x01, 0x02]⟩] ++ [⟨0x66726565, [0x03]⟩]
              ++ [⟨0x6d656864, [0x04]⟩])).length)
      = .ok ({ mehd := mvexMehdOf ([⟨0x74726578, [0x01, 0x02]⟩] ++ [⟨0x6d656864, [0x04]⟩]),
               trex := mvexTrexOf ([⟨0x74726578, [0x01, 0x02]⟩] ++ [⟨0x6d656864, [0x04]⟩]) },
             ⟨[0x00, 0x00, 0x00, 0x00, 0x00, 0x00, 0x00, 0x00] ++
               (encodeChildren ([⟨0x74726578, [0x01, 0x02]⟩] ++ [⟨0x66726565, [0x03]⟩]
                   ++ [⟨0x6d656864, [0x04]⟩]) ++ []),
              List.length [(0x00 : Byte), 0x00, 0x00, 0x00, 0x00, 0x00, 0x00, 0x00] +
                (encodeChildren ([⟨0x74726578, [0x01, 0x02]⟩] ++ [⟨0x66726565, [0x03]⟩]
                    ++ [⟨0x6d656864, [0x04]⟩])).length⟩) :=
  c8_unknown_child_skipped [⟨0x74726578, [0x01, 0x02]⟩] [⟨0x6d656864, [0x04]⟩]
    ⟨0x66726565, [0x03]⟩ 4
    [0x00, 0x00, 0x00, 0x00, 0x00, 0x00, 0x00, 0x00] []
    (by decide) (by decide) (by unfold RawChild.wf; decide)
    (by decide) (by decide) (by decide)
